import Mathlib

/-!
Verification of the xc-mcp caching and smart-default engine.

This file shallowly embeds the core of the repository:
* the `ResponseCache` class of `src/utils/response-cache.ts`
  (`store` / `get` / `getRecentByTool` / `cleanup`);
* the summary extractor `extractBuildSummary` of the same file;
* the streaming process executor `executeCommandStreaming` of
  `src/utils/command.ts`, as a fold over an explicit event trace;
* the destination resolver `resolveDestination` (and its helpers) of
  `src/tools/xcodebuild/build.ts`;
* the success / `isError` computation of `xcodebuildBuildTool`;
* the project preference cache (`src/state/project-cache.ts`, not part of
  the sources at hand), modelled from the specification.

JavaScript `Map` objects are modelled as association lists in insertion
order; `Date.now()` / `new Date()` readings are passed explicitly as a
`now : Nat` argument (milliseconds); `randomUUID` handles are modelled by a
fresh-id counter.  `Array.prototype.sort` is stable (ES2019), so sorting is
modelled by stable insertion sorts.
-/

namespace XcMcp

/-- Containment of `pat` as a contiguous run of characters somewhere in the
second list (helper for JavaScript's `String.prototype.includes`). -/
def hasSubList (pat : List Char) : List Char → Bool
  | [] => pat.isEmpty
  | c :: rest => pat.isPrefixOf (c :: rest) || hasSubList pat rest

/-- JavaScript `s.includes(sub)` (substring containment). -/
def strIncludes (s sub : String) : Bool :=
  hasSubList sub.toList s.toList

/-- JavaScript `s.toLowerCase()` (character-wise, which is what the
resolver's ASCII tokens need). -/
def strToLower (s : String) : String :=
  String.mk (s.toList.map Char.toLower)

/-- Whitespace-stripping on both ends of a character list. -/
def trimChars (l : List Char) : List Char :=
  ((l.dropWhile Char.isWhitespace).reverse.dropWhile Char.isWhitespace).reverse

/-- JavaScript `s.trim()`. -/
def strTrim (s : String) : String :=
  String.mk (trimChars s.toList)

/-- Accumulator loop for `splitOnChar`. -/
def splitOnCharAux (sep : Char) : List Char → List Char → List String
  | [], acc => [String.mk acc.reverse]
  | c :: rest, acc =>
    if c == sep then String.mk acc.reverse :: splitOnCharAux sep rest []
    else splitOnCharAux sep rest (c :: acc)

/-- JavaScript `s.split(sep)` for a single-character separator (the only
form the embedded code uses: `'\n'`, `'.'`, `'-'`). -/
def splitOnChar (sep : Char) (s : String) : List String :=
  splitOnCharAux sep s.toList []

/-! ## Response cache (`src/utils/response-cache.ts`) -/

/-- Scalar metadata values: `string | number | boolean | null | undefined`.
Numbers are modelled as integers; no claim computes on metadata values. -/
inductive MetaValue where
  | str (s : String)
  | num (n : Int)
  | boolean (b : Bool)
  | null
  | undef
deriving DecidableEq, Repr

/-- The `CachedResponse` interface.  The handle `id` is a `Nat` (fresh-id
counter standing in for `randomUUID`); `timestamp` is milliseconds. -/
structure CachedResponse where
  id : Nat
  tool : String
  timestamp : Nat
  fullOutput : String
  stderr : String
  exitCode : Int
  command : String
  metadata : List (String × MetaValue)
deriving DecidableEq, Repr

/-- The argument of `store`: `Omit<CachedResponse, 'id' | 'timestamp'>`. -/
structure ResponsePayload where
  tool : String
  fullOutput : String
  stderr : String
  exitCode : Int
  command : String
  metadata : List (String × MetaValue)
deriving DecidableEq, Repr

/-- `this.cache : Map<string, CachedResponse>` in insertion order, plus the
fresh-id counter modelling `randomUUID`. -/
structure ResponseCacheState where
  entries : List (Nat × CachedResponse)
  nextId : Nat
deriving DecidableEq, Repr

/-- `private readonly maxAge = 1000 * 60 * 30`. -/
def maxAge : Nat := 1000 * 60 * 30

/-- `private readonly maxEntries = 100`. -/
def maxEntries : Nat := 100

def emptyCache : ResponseCacheState := { entries := [], nextId := 0 }

/-- The expiry test `now - cached.timestamp.getTime() > this.maxAge`.
For a timestamp in the future JS gets a negative difference and Lean's
truncated subtraction gets `0`; both fail the `> maxAge` test, so `Nat`
subtraction is faithful here. -/
def expiredAt (now ts : Nat) : Bool :=
  decide (now - ts > maxAge)

/-- Stable insertion (ascending by timestamp) used to model the stable
`Array.prototype.sort(([, a], [, b]) => a.timestamp - b.timestamp)`:
an element is placed before the first strictly larger-or-equal key, i.e.
ties keep their original relative order under the fold below. -/
def insertByTs (x : Nat × CachedResponse) :
    List (Nat × CachedResponse) → List (Nat × CachedResponse)
  | [] => [x]
  | y :: ys =>
    if y.2.timestamp < x.2.timestamp then y :: insertByTs x ys else x :: y :: ys

/-- Stable ascending-by-timestamp sort (model of `cleanup`'s sort). -/
def sortByTs (l : List (Nat × CachedResponse)) : List (Nat × CachedResponse) :=
  l.foldr insertByTs []

/-- `private cleanup()`: first delete every expired entry, then, if still
over `maxEntries`, delete the oldest (by timestamp, stable) surplus
entries.  Deleting from a JS `Map` preserves the insertion order of the
remaining entries, hence the final `filter`. -/
def cleanup (now : Nat) (st : ResponseCacheState) : ResponseCacheState :=
  let live := st.entries.filter (fun e => !expiredAt now e.2.timestamp)
  if live.length > maxEntries then
    let sorted := sortByTs live
    let removeIds := (sorted.take (live.length - maxEntries)).map Prod.fst
    { st with entries := live.filter (fun e => !removeIds.contains e.1) }
  else
    { st with entries := live }

/-- The `CachedResponse` record built by `store`: the payload spread plus
the fresh `id` and the `new Date()` stamp. -/
def mkCached (id now : Nat) (p : ResponsePayload) : CachedResponse :=
  { id := id, tool := p.tool, timestamp := now, fullOutput := p.fullOutput,
    stderr := p.stderr, exitCode := p.exitCode, command := p.command,
    metadata := p.metadata }

/-- `store(data)`: generate a fresh id, stamp `new Date()`, insert, run
`cleanup`, return the id.  (The debounced persistence call has no effect on
the in-memory state and is not modelled.) -/
def store (now : Nat) (p : ResponsePayload) (st : ResponseCacheState) :
    Nat × ResponseCacheState :=
  let id := st.nextId
  let st' : ResponseCacheState :=
    { entries := st.entries ++ [(id, mkCached id now p)], nextId := st.nextId + 1 }
  (id, cleanup now st')

/-- `get(id)`: return the entry if present; if present but expired, delete
it (`Map.delete` removes the single entry with that key) and return
`undefined`. -/
def get (now : Nat) (id : Nat) (st : ResponseCacheState) :
    Option CachedResponse × ResponseCacheState :=
  match st.entries.lookup id with
  | none => (none, st)
  | some c =>
    if expiredAt now c.timestamp then
      (none, { st with entries := st.entries.eraseP (fun e => e.1 == id) })
    else
      (some c, st)

/-- Stable insertion (descending by timestamp) modelling the stable
`sort((a, b) => b.timestamp.getTime() - a.timestamp.getTime())`. -/
def insertByTsDesc (x : CachedResponse) :
    List CachedResponse → List CachedResponse
  | [] => [x]
  | y :: ys =>
    if y.timestamp > x.timestamp then y :: insertByTsDesc x ys else x :: y :: ys

/-- Stable descending-by-timestamp sort used by `getRecentByTool`. -/
def sortByTsDesc (l : List CachedResponse) : List CachedResponse :=
  l.foldr insertByTsDesc []

/-- `getRecentByTool(tool, limit = 5)`: filter by tool, sort most recent
first, truncate.  Note that the source performs no expiry check here. -/
def getRecentByTool (tool : String) (limit : Nat) (st : ResponseCacheState) :
    List CachedResponse :=
  (sortByTsDesc ((st.entries.map Prod.snd).filter (fun c => c.tool == tool))).take limit

/-- Folding `store` over a list of `(time, payload)` pairs: a sequence of
`store` calls, each reading the clock as the paired time. -/
def storeMany (ps : List (Nat × ResponsePayload)) (st : ResponseCacheState) :
    ResponseCacheState :=
  ps.foldl (fun s tp => (store tp.1 tp.2 s).2) st

/-- The cache entries that a sequence of `(time, payload)` stores starting
at id `i` creates, in insertion order. -/
def labelFrom (i : Nat) : List (Nat × ResponsePayload) → List (Nat × CachedResponse)
  | [] => []
  | (t, p) :: rest => (i, mkCached i t p) :: labelFrom (i + 1) rest

/-! ## Build summary extraction (`extractBuildSummary`) -/

/-- A line classified as an error:
`line.includes('error:') || line.includes('** BUILD FAILED **')`. -/
def isErrorLine (line : String) : Bool :=
  strIncludes line "error:" || strIncludes line "** BUILD FAILED **"

/-- A line classified as a warning: `line.includes('warning:')`. -/
def isWarningLine (line : String) : Bool :=
  strIncludes line "warning:"

/-- A success-indicator line:
`line.includes('** BUILD SUCCEEDED **') || line.includes('Build completed')`. -/
def isSuccessLine (line : String) : Bool :=
  strIncludes line "** BUILD SUCCEEDED **" || strIncludes line "Build completed"

/-- `(output + '\n' + stderr).split('\n')`. -/
def summaryLines (output stderr : String) : List String :=
  splitOnChar '\n' (output ++ "\n" ++ stderr)

/-- Result record of `extractBuildSummary`.  The regex-derived `duration`
and `target` fields are not referenced by any claim and are omitted from
the embedding. -/
structure BuildSummary where
  success : Bool
  exitCode : Int
  errorCount : Nat
  warningCount : Nat
  hasErrors : Bool
  hasWarnings : Bool
  firstError : Option String
  errors : List String
  warnings : List String
  buildSizeBytes : Nat
deriving DecidableEq, Repr

/-- `extractBuildSummary(output, stderr, exitCode)`. -/
def extractBuildSummary (output stderr : String) (exitCode : Int) : BuildSummary :=
  let lines := summaryLines output stderr
  let errors := lines.filter isErrorLine
  let warnings := lines.filter isWarningLine
  let successIndicators := lines.filter isSuccessLine
  { success := exitCode == 0 && decide (successIndicators.length > 0)
    exitCode := exitCode
    errorCount := errors.length
    warningCount := warnings.length
    hasErrors := decide (errors.length > 0)
    hasWarnings := decide (warnings.length > 0)
    firstError := errors.head?.map strTrim
    errors := (errors.take 10).map strTrim
    warnings := (warnings.take 10).map strTrim
    buildSizeBytes := output.length + stderr.length }

/-! ## The build tool's success / `isError` computation
(`xcodebuildBuildTool` in `src/tools/xcodebuild/build.ts`) -/

/-- The two success-related outputs of `xcodebuildBuildTool`: the
`success` field placed in the JSON response body
(`buildSuccess = summary.success && !result.timedOut`) and the MCP result
flag (`isError: !summary.success`). -/
structure BuildToolFlags where
  bodySuccess : Bool
  isError : Bool
deriving DecidableEq, Repr

/-- The pure fragment of `xcodebuildBuildTool` that derives the response
body's `success` and the tool result's `isError` from the streaming
result. -/
def buildToolFlags (stdout stderr : String) (code : Int) (timedOut : Bool) :
    BuildToolFlags :=
  let summary := extractBuildSummary stdout stderr code
  { bodySuccess := summary.success && !timedOut
    isError := !summary.success }

/-! ## Streaming process executor (`executeCommandStreaming`)

The executor is a promise whose state is mutated by event-loop callbacks:
`stdout`/`stderr` `data` handlers, the timeout timer, and the child's
`close`/`error` handlers.  A run is modelled as a fold of the handler
bodies over an explicit list of events in delivery order.  Fatal patterns
are caller-supplied regular expressions; the claims under verification do
not depend on regex features, so a pattern is modelled as a literal string
matched by substring containment (for which JS `chunk.match(p)[0]` is the
pattern text itself). -/

/-- `StreamingCommandResult`. -/
structure StreamResult where
  stdout : String
  stderr : String
  code : Int
  timedOut : Bool
  fatalMatch : Option String
deriving DecidableEq, Repr

/-- The two rejection reasons of `executeCommandStreaming`: the
`maxBuffer` rejection and the child-process `error` rejection. -/
inductive ExecError where
  | bufferExceeded
  | spawnFailed
deriving DecidableEq, Repr

/-- Event-loop events delivered to the executor's handlers.  `close`
carries the child's exit code (`null` mapped to `0` by `code ?? 0`). -/
inductive StreamEvent where
  | out (chunk : String)
  | err (chunk : String)
  | timeoutFired
  | close (code : Option Int)
  | procError
deriving DecidableEq, Repr

/-- The executor's mutable state: the accumulators, the two flags, whether
`child.kill()` has been invoked, whether `clearTimeout(timeoutId)` has been
called, and the once-only settlement of the promise. -/
structure ExecState where
  stdout : String
  stderr : String
  timedOut : Bool
  fatalMatch : Option String
  killed : Bool
  timeoutCleared : Bool
  settled : Option (Except ExecError StreamResult)
deriving Repr

def execInit : ExecState :=
  { stdout := "", stderr := "", timedOut := false, fatalMatch := none,
    killed := false, timeoutCleared := false, settled := none }

/-- A promise settles at most once: later `resolve`/`reject` calls are
no-ops. -/
def settle (r : Except ExecError StreamResult) (st : ExecState) : ExecState :=
  if st.settled.isSome then st else { st with settled := some r }

/-- `checkPatterns(chunk)`: skip if a fatal match was already recorded,
else record the first matching pattern, notify, and kill the child. -/
def checkPatterns (pats : List String) (chunk : String) (st : ExecState) :
    ExecState :=
  if st.fatalMatch.isSome then st
  else
    match pats.find? (fun p => strIncludes chunk p) with
    | some p => { st with fatalMatch := some p, killed := true }
    | none => st

/-- One event-handler invocation of `executeCommandStreaming`. -/
def execStep (maxBuffer : Nat) (pats : List String) (st : ExecState) :
    StreamEvent → ExecState
  | .out chunk =>
    let st1 := { st with stdout := st.stdout ++ chunk }
    let st2 := checkPatterns pats chunk st1
    if st2.stdout.length > maxBuffer then
      settle (.error .bufferExceeded)
        { st2 with killed := true, timeoutCleared := true }
    else st2
  | .err chunk =>
    checkPatterns pats chunk { st with stderr := st.stderr ++ chunk }
  | .timeoutFired =>
    if st.timeoutCleared then st
    else { st with timedOut := true, killed := true }
  | .close code =>
    let st1 := { st with timeoutCleared := true }
    settle (.ok { stdout := strTrim st1.stdout, stderr := strTrim st1.stderr,
                  code := code.getD 0, timedOut := st1.timedOut,
                  fatalMatch := st1.fatalMatch }) st1
  | .procError =>
    settle (.error .spawnFailed) { st with timeoutCleared := true }

/-- A whole run of the executor over an event trace. -/
def execRun (maxBuffer : Nat) (pats : List String) (events : List StreamEvent) :
    ExecState :=
  events.foldl (execStep maxBuffer pats) execInit

/-- Events that a trace body (everything before the final `close`) may
contain: data chunks and the timer, but no `close` / `error`. -/
def isBodyEvent : StreamEvent → Bool
  | .out _ => true
  | .err _ => true
  | .timeoutFired => true
  | .close _ => false
  | .procError => false

/-- Total length of the stdout chunks of a trace. -/
def outLen (events : List StreamEvent) : Nat :=
  (events.map (fun e => match e with | .out c => c.length | _ => 0)).sum

/-! ## Project preference cache (`src/state/project-cache.ts`)

The file `project-cache.ts` itself is not among the sources at hand; only
its callers are.  Its data model and the two operations the claims need
are modelled from the specification (§3 "BuildConfig", §4.4). -/

/-- Modelled from the spec: the `BuildConfig` preference record of
`src/state/project-cache.ts` (absent from the sources); field shape per
spec §3 and the record's construction in `build.ts`. -/
structure BuildConfig where
  scheme : String
  configuration : String
  destination : Option String
  sdk : Option String
  derivedDataPath : Option String
deriving DecidableEq, Repr

/-- Modelled from the spec: one recorded build outcome (timestamp,
success, duration, error/warning counts, output size — §3, §4.4). -/
structure BuildOutcome where
  timestamp : Nat
  success : Bool
  duration : Nat
  errorCount : Nat
  warningCount : Nat
  buildSizeBytes : Nat
deriving DecidableEq, Repr

/-- Modelled from the spec: the per-project record — the current preferred
configuration plus a bounded outcome history. -/
structure ProjectEntry where
  preferred : Option BuildConfig
  history : List BuildOutcome
deriving DecidableEq, Repr

def emptyProjectEntry : ProjectEntry := { preferred := none, history := [] }

/-- Modelled from the spec: the history retention cap ("bounded retention,
oldest entries dropped first"); the exact bound is not given by the spec
and no claim depends on it. -/
def historyLimit : Nat := 10

/-- Modelled from the spec: the project cache, keyed by project identity
(the resolved project path). -/
abbrev ProjectCacheState := List (String × ProjectEntry)

def getProjectEntry (p : String) (st : ProjectCacheState) : ProjectEntry :=
  (st.lookup p).getD emptyProjectEntry

def setProjectEntry (p : String) (e : ProjectEntry) :
    ProjectCacheState → ProjectCacheState
  | [] => [(p, e)]
  | (q, v) :: rest =>
    if q == p then (q, e) :: rest else (q, v) :: setProjectEntry p e rest

/-- Modelled from the spec: `getPreferredBuildConfig(projectIdentity)` —
"the last successful BuildConfig for that project, or none if never
recorded" (§4.4). -/
def getPreferredBuildConfig (p : String) (st : ProjectCacheState) :
    Option BuildConfig :=
  (getProjectEntry p st).preferred

/-- Modelled from the spec: `recordBuildResult(projectIdentity, config,
outcome)` — "appends an outcome record to history (bounded retention); if
`outcome.success` is true, replaces the preferred configuration with
`config`.  A failed outcome never overwrites the preferred configuration"
(§4.4). -/
def recordBuildResult (p : String) (config : BuildConfig)
    (outcome : BuildOutcome) (st : ProjectCacheState) : ProjectCacheState :=
  let e := getProjectEntry p st
  let h := e.history ++ [outcome]
  setProjectEntry p
    { preferred := if outcome.success then some config else e.preferred
      history := h.drop (h.length - historyLimit) } st

/-! ## Destination resolution (`resolveDestination` in
`src/tools/xcodebuild/build.ts`)

The resolver consults the simulator cache (`getPreferredSimulator`,
`getSimulatorList`, both in `src/state/simulator-cache.ts`, external to the
sources at hand); their results are passed to the model as values, which
embeds the resolver's non-throwing path (the `try`/`catch` fallback to
`undefined` fires only when a cache call throws). -/

/-- Characters kept by `lower.replace(/[^a-z]/g, '')`. -/
def keepAlpha (s : String) : String :=
  String.mk (s.toList.filter (fun c => decide ('a' ≤ c) && decide (c ≤ 'z')))

/-- `derivePlatformFromToken(token)`: pattern-match the lowered token
against platform name fragments, else strip non-letters, else `undefined`.
JS falsiness of `''` is modelled by the `isEmpty` checks; the function
never returns `some ""`. -/
def derivePlatformFromToken : Option String → Option String
  | none => none
  | some token =>
    if token == "" then none
    else
      let lower := strToLower token
      if strIncludes lower "mac" then some "macos"
      else if strIncludes lower "iphone" || strIncludes lower "ios" then some "ios"
      else if strIncludes lower "tvos" || strIncludes lower "appletv" then some "tvos"
      else if strIncludes lower "watch" then some "watchos"
      else if strIncludes lower "vision" then some "visionos"
      else
        let stripped := keepAlpha lower
        if stripped == "" then none else some stripped

/-- Case-insensitive test for the literal `platform=` at the head of a
character list (the anchor of the regex `/platform=([^,]+)/i`). -/
def platformEqAt (s : List Char) : Bool :=
  (s.take 9).map Char.toLower == "platform=".toList

/-- First match of `/platform=([^,]+)/i`: scan left to right; at an
anchor, capture greedily up to the first comma; a position where the
capture would be empty is no match (`[^,]+` needs one character) and the
scan continues at the next position, as a regex engine does. -/
def findPlatformCapture : List Char → Option String
  | [] => none
  | c :: rest =>
    if platformEqAt (c :: rest) then
      let cap := ((c :: rest).drop 9).takeWhile (fun ch => !(ch == ','))
      if cap.isEmpty then findPlatformCapture rest else some (String.mk cap)
    else findPlatformCapture rest

/-- `derivePlatformFromDestination(destination)`. -/
def derivePlatformFromDestination : Option String → Option String
  | none => none
  | some d =>
    if d == "" then none
    else
      match findPlatformCapture d.toList with
      | none => none
      | some tok => derivePlatformFromToken (some tok)

/-- Result of `deriveSdkInfo`. -/
structure SdkInfo where
  platform : Option String
  isSimulator : Bool
deriving DecidableEq, Repr

/-- `deriveSdkInfo(sdk)`. -/
def deriveSdkInfo : Option String → SdkInfo
  | none => { platform := none, isSimulator := false }
  | some sdk =>
    if sdk == "" then { platform := none, isSimulator := false }
    else
      let lower := strToLower sdk
      { platform := derivePlatformFromToken (some lower)
        isSimulator := strIncludes lower "simulator" }

/-- `platformsCompatible`: compatible when either side is unknown, else
equal.  (`derivePlatformFromToken` never yields `some ""`, so `Option`
matches JS falsiness here.) -/
def platformsCompatible : Option String → Option String → Bool
  | some a, some b => a == b
  | _, _ => true

/-- A device of the simulator cache's listing snapshot (the fields the
resolver reads). -/
structure SimDevice where
  udid : String
  name : String
  isAvailable : Bool
  state : String
deriving DecidableEq, Repr

/-- The listing snapshot's `devices` map, runtime identifier to devices,
in object-key insertion order (`Object.entries` order). -/
structure SimListing where
  devices : List (String × List SimDevice)
deriving DecidableEq, Repr

/-- `findRuntimeForUdid`: the first runtime bucket containing the udid. -/
def findRuntimeForUdid (list : SimListing) (udid : String) : Option String :=
  (list.devices.find? (fun rd => rd.2.any (fun d => d.udid == udid))).map Prod.fst

/-- `platformLabelFromRuntime(runtime)`:
`runtime.split('.').pop() || runtime`, then `.split('-')[0]`, then
`baseName` + `" Simulator"` (or `undefined` for an empty base). -/
def platformLabelFromRuntime (runtime : String) : Option String :=
  let popped := (splitOnChar '.' runtime).getLastD ""
  let lastSegment := if popped == "" then runtime else popped
  let baseName := (splitOnChar '-' lastSegment).headD ""
  if baseName == "" then none else some (baseName ++ " Simulator")

/-- `runtimeMatchesPlatform(runtime, platform)`. -/
def runtimeMatchesPlatform (runtime platform : String) : Bool :=
  strIncludes (strToLower runtime) (strToLower platform)

/-- `buildDestinationFromUdid(udid, runtime)`. -/
def buildDestinationFromUdid (udid : String) (runtime : Option String) : String :=
  match runtime with
  | some r =>
    match platformLabelFromRuntime r with
    | some label => "platform=" ++ label ++ ",id=" ++ udid
    | none => "id=" ++ udid
  | none => "id=" ++ udid

/-- The `for (const [runtime, devices] of Object.entries(list.devices))`
loop of `getSmartSimulatorDestination`: skip buckets that fail the
platform hint, return a destination for the first available device. -/
def scanListForHint (hint : Option String) :
    List (String × List SimDevice) → Option String
  | [] => none
  | (runtime, devices) :: rest =>
    if (match hint with
        | some p => !runtimeMatchesPlatform runtime p
        | none => false) then
      scanListForHint hint rest
    else
      match devices.find? (fun d => d.isAvailable) with
      | some dev => some (buildDestinationFromUdid dev.udid (some runtime))
      | none => scanListForHint hint rest

/-- `getSmartSimulatorDestination(projectPath, platformHint)`, with the
simulator cache's answers (`getPreferredSimulator`, `getSimulatorList`)
passed as values. -/
def getSmartSimulatorDestination (preferredSim : Option SimDevice)
    (list : SimListing) (hint : Option String) : Option String :=
  match preferredSim with
  | some sim =>
    let runtime := findRuntimeForUdid list sim.udid
    let keep : Bool := hint.isNone ||
      (match runtime, hint with
       | some r, some p => runtimeMatchesPlatform r p
       | _, _ => false)
    if keep then some (buildDestinationFromUdid sim.udid runtime)
    else scanListForHint hint list.devices
  | none => scanListForHint hint list.devices

/-- Rules 4–6 of `resolveDestination` (after the explicit-argument and
cached-destination rules have declined). -/
def resolveFromSdkAndSims (sdkInfo : SdkInfo) (preferredSim : Option SimDevice)
    (list : SimListing) : Option String :=
  if sdkInfo.platform == some "macos" then none
  else if sdkInfo.platform.isSome && !sdkInfo.isSimulator &&
      !(sdkInfo.platform == some "macos") then none
  else getSmartSimulatorDestination preferredSim list sdkInfo.platform

/-- `resolveDestination` for the case that the explicit-destination rule
has declined: reuse a platform-compatible cached destination, else fall
through to the SDK/simulator rules.  JS truthiness of
`preferredConfig?.destination` is the `isEmpty` test. -/
def resolveFromCaches (preferredConfig : Option BuildConfig)
    (sdk : Option String) (preferredSim : Option SimDevice)
    (list : SimListing) : Option String :=
  let sdkInfo := deriveSdkInfo sdk
  match preferredConfig with
  | some pc =>
    match pc.destination with
    | some dest =>
      if !(dest == "") then
        if platformsCompatible sdkInfo.platform
            (derivePlatformFromDestination (some dest)) then
          some dest
        else resolveFromSdkAndSims sdkInfo preferredSim list
      else resolveFromSdkAndSims sdkInfo preferredSim list
    | none => resolveFromSdkAndSims sdkInfo preferredSim list
  | none => resolveFromSdkAndSims sdkInfo preferredSim list

/-- `resolveDestination(params)`: a non-blank explicit destination always
wins; otherwise consult caches and SDK constraints. -/
def resolveDestination (explicitDestination : Option String)
    (preferredConfig : Option BuildConfig) (sdk : Option String)
    (preferredSim : Option SimDevice) (list : SimListing) : Option String :=
  let explicitWins : Bool :=
    match explicitDestination with
    | some d => decide (0 < (strTrim d).length)
    | none => false
  if explicitWins then explicitDestination
  else resolveFromCaches preferredConfig sdk preferredSim list

/-! ## Concrete sample data used by witnesses -/

def listPayload : ResponsePayload :=
  { tool := "simctl-list", fullOutput := "Device list", stderr := "",
    exitCode := 0, command := "simctl list", metadata := [] }

def buildPayload : ResponsePayload :=
  { tool := "xcodebuild-build", fullOutput := "** BUILD SUCCEEDED **",
    stderr := "", exitCode := 0, command := "xcodebuild build", metadata := [] }

def releaseCfg : BuildConfig :=
  { scheme := "App", configuration := "Release", destination := none,
    sdk := none, derivedDataPath := none }

def failedOutcome : BuildOutcome :=
  { timestamp := 5, success := false, duration := 1, errorCount := 2,
    warningCount := 0, buildSizeBytes := 10 }

def successOutcome : BuildOutcome :=
  { timestamp := 6, success := true, duration := 1, errorCount := 0,
    warningCount := 0, buildSizeBytes := 10 }

def tvPrefCfg : BuildConfig :=
  { scheme := "App", configuration := "Debug",
    destination := some "platform=tvOS Simulator,id=TV-1", sdk := none,
    derivedDataPath := none }

def iosRuntimeId : String := "com.apple.CoreSimulator.SimRuntime.iOS-18-0"

def phoneDev : SimDevice :=
  { udid := "PHONE", name := "iPhone", isAvailable := true, state := "Shutdown" }

def iosListing : SimListing := { devices := [(iosRuntimeId, [phoneDev])] }

def passcodePattern : String := "The device is passcode protected"

def passcodeChunk : String := "xcodebuild: The device is passcode protected."

/-- The result of a run in which the timeout fired and then a fatal chunk
arrived before `close`: both indicators are set at once. -/
def bothFlagsResult : StreamResult :=
  { stdout := passcodeChunk, stderr := "", code := 0, timedOut := true,
    fatalMatch := some passcodePattern }

def destErrPattern : String :=
  "Unable to find a device matching the provided destination specifier"

def destErrChunk : String :=
  "xcodebuild: error: Unable to find a device matching the provided destination specifier."

/-! ## Generic association-list lemmas -/

theorem lookup_eq_none_of_not_mem {α β : Type} [BEq α] [LawfulBEq α] (a : α) :
    ∀ l : List (α × β), a ∉ l.map Prod.fst → l.lookup a = none := by
  intro l
  induction l with
  | nil => intro _; rfl
  | cons e rest ih =>
    intro h
    simp only [List.map_cons, List.mem_cons] at h
    push_neg at h
    have hne : (a == e.1) = false := beq_false_of_ne h.1
    cases e with
    | mk k v => simp only [List.lookup]; rw [hne]; exact ih h.2

theorem lookup_eraseP_self {α β : Type} [BEq α] [LawfulBEq α] (a : α) :
    ∀ l : List (α × β), (l.map Prod.fst).Nodup →
      (l.eraseP (fun e => e.1 == a)).lookup a = none := by
  intro l
  induction l with
  | nil => intro _; rfl
  | cons e rest ih =>
    intro hnd
    simp only [List.map_cons, List.nodup_cons] at hnd
    by_cases hk : e.1 = a
    · have hb : (e.1 == a) = true := by simp [hk]
      rw [List.eraseP_cons, hb, cond_true]
      apply lookup_eq_none_of_not_mem
      rw [← hk]; exact hnd.1
    · have hb : (e.1 == a) = false := by simp [hk]
      rw [List.eraseP_cons, hb, cond_false]
      have hne : (a == e.1) = false := beq_false_of_ne (Ne.symm hk)
      cases e with
      | mk k v =>
        simp only [List.lookup]; rw [hne]
        exact ih hnd.2

theorem lookup_append_last {β : Type} (n : Nat) (c : β) :
    ∀ l : List (Nat × β), (∀ e ∈ l, e.1 ≠ n) →
      (l ++ [(n, c)]).lookup n = some c := by
  intro l
  induction l with
  | nil => intro _; simp [List.lookup]
  | cons e rest ih =>
    intro h
    have hne : (n == e.1) = false :=
      beq_false_of_ne (fun he => h e (List.mem_cons_self e rest) he.symm)
    cases e with
    | mk k v =>
      simp only [List.cons_append, List.lookup]; rw [hne]
      exact ih (fun e he => h e (List.mem_cons_of_mem _ he))

/-! ## C2: expired entries are unreachable via `get` and removed by the
failed lookup -/

/-- C2.  If the cached entry for a handle has age strictly greater than
`maxAge`, then `get` on that handle returns "not found" (`undefined`), and
as a side effect the failed lookup removes the entry from the cache;
moreover `get` never returns an expired entry (any entry it returns has
age at most `maxAge`). -/
theorem claim2_get_expired_removes (now id : Nat) (st : ResponseCacheState)
    (c : CachedResponse)
    (hnd : (st.entries.map Prod.fst).Nodup)
    (hc : st.entries.lookup id = some c)
    (hexp : now - c.timestamp > maxAge) :
    (get now id st).1 = none ∧
    (get now id st).2.entries.lookup id = none ∧
    (∀ (now' id' : Nat) (st' : ResponseCacheState) (c' : CachedResponse),
      (get now' id' st').1 = some c' → now' - c'.timestamp ≤ maxAge) := by
  have he : expiredAt now c.timestamp = true := decide_eq_true hexp
  refine ⟨?_, ?_, ?_⟩
  · simp only [get, hc, he, if_true]
  · simp only [get, hc, he, if_true]
    exact lookup_eraseP_self id st.entries hnd
  · intro now' id' st' c' h
    cases hl : st'.entries.lookup id' with
    | none => rw [get, hl] at h; exact absurd h (by simp)
    | some c0 =>
      simp only [get, hl] at h
      by_cases he' : expiredAt now' c0.timestamp = true
      · rw [if_pos he'] at h; simp at h
      · rw [if_neg he'] at h
        simp only at h
        have hcc : c0 = c' := by exact Option.some_inj.mp h
        subst hcc
        simpa [expiredAt] using he'

/-- C2 witness: a concrete expired entry. -/
theorem claim2_witness :
    (get 1800001 0 (store 0 listPayload emptyCache).2).1 = none ∧
    (get 1800001 0 (store 0 listPayload emptyCache).2).2.entries.lookup 0 = none := by
  have h := claim2_get_expired_removes 1800001 0
    (store 0 listPayload emptyCache).2 (mkCached 0 0 listPayload)
    (by decide) (by decide) (by decide)
  exact ⟨h.1, h.2.1⟩

/-! ## C4: only successful outcomes replace the preferred build
configuration (project cache modelled from the spec) -/

theorem getProjectEntry_setProjectEntry (p : String) (e : ProjectEntry) :
    ∀ st : ProjectCacheState, getProjectEntry p (setProjectEntry p e st) = e := by
  intro st
  induction st with
  | nil => simp [getProjectEntry, setProjectEntry, List.lookup]
  | cons qv rest ih =>
    cases qv with
    | mk q v =>
      by_cases hq : q = p
      · simp [setProjectEntry, getProjectEntry, List.lookup, hq]
      · have h1 : (q == p) = false := beq_false_of_ne hq
        have h2 : (p == q) = false := beq_false_of_ne (Ne.symm hq)
        simp only [setProjectEntry, h1, if_false, cond_false]
        simpa [getProjectEntry, List.lookup, h2] using ih

/-- C4.  For every project identity, `recordBuildResult` with a failed
outcome leaves `getPreferredBuildConfig` unchanged, and with a successful
outcome replaces it so that the lookup returns the config just recorded.
(`project-cache.ts` is not among the sources at hand; the operations are
modelled from the spec, §4.4.) -/
theorem claim4_record_preferred (p : String) (config : BuildConfig)
    (outcome : BuildOutcome) (st : ProjectCacheState) :
    (outcome.success = false →
      getPreferredBuildConfig p (recordBuildResult p config outcome st) =
        getPreferredBuildConfig p st) ∧
    (outcome.success = true →
      getPreferredBuildConfig p (recordBuildResult p config outcome st) =
        some config) := by
  constructor
  · intro hf
    simp only [recordBuildResult, getPreferredBuildConfig, hf, if_false,
      Bool.false_eq_true, getProjectEntry_setProjectEntry]
  · intro ht
    simp only [recordBuildResult, getPreferredBuildConfig, ht, if_true,
      getProjectEntry_setProjectEntry]

/-- C4 witness: concrete failed and successful recordings. -/
theorem claim4_witness :
    (getPreferredBuildConfig "/tmp/App.xcodeproj"
      (recordBuildResult "/tmp/App.xcodeproj" releaseCfg failedOutcome []) = none) ∧
    (getPreferredBuildConfig "/tmp/App.xcodeproj"
      (recordBuildResult "/tmp/App.xcodeproj" releaseCfg successOutcome []) =
      some releaseCfg) := by
  constructor
  · have h := (claim4_record_preferred "/tmp/App.xcodeproj" releaseCfg
      failedOutcome []).1 rfl
    rw [h]; rfl
  · exact (claim4_record_preferred "/tmp/App.xcodeproj" releaseCfg
      successOutcome []).2 rfl

/-! ## C7: build summary success condition and list caps -/

theorem extractBuildSummary_success_iff (output stderr : String) (exitCode : Int) :
    (extractBuildSummary output stderr exitCode).success = true ↔
      exitCode = 0 ∧ ∃ line ∈ summaryLines output stderr, isSuccessLine line = true := by
  simp only [extractBuildSummary, Bool.and_eq_true, beq_iff_eq,
    decide_eq_true_eq]
  constructor
  · rintro ⟨h0, hlen⟩
    refine ⟨h0, ?_⟩
    obtain ⟨l, hl⟩ := List.length_pos_iff_exists_mem.mp hlen
    exact ⟨l, (List.mem_filter.mp hl).1, (List.mem_filter.mp hl).2⟩
  · rintro ⟨h0, l, hmem, hline⟩
    exact ⟨h0, List.length_pos_iff_exists_mem.mpr
      ⟨l, List.mem_filter.mpr ⟨hmem, hline⟩⟩⟩

/-- C7.  `extractBuildSummary` reports success exactly when the exit code
is `0` and at least one success-marker line occurs in the combined
stdout/stderr lines; in particular exit code `0` with exactly one
success-marker line and no error-marker line yields `success = true` and
`errorCount = 0`; and the exposed `errors`/`warnings` lists are the first
10 matching lines (trimmed) while `errorCount`/`warningCount` report the
full totals. -/
theorem claim7_build_summary (output stderr : String) (exitCode : Int) :
    ((extractBuildSummary output stderr exitCode).success = true ↔
      exitCode = 0 ∧ ∃ line ∈ summaryLines output stderr, isSuccessLine line = true) ∧
    (exitCode = 0 →
      ((summaryLines output stderr).filter isSuccessLine).length = 1 →
      (summaryLines output stderr).filter isErrorLine = [] →
      (extractBuildSummary output stderr exitCode).success = true ∧
      (extractBuildSummary output stderr exitCode).errorCount = 0) ∧
    ((extractBuildSummary output stderr exitCode).errors =
        (((summaryLines output stderr).filter isErrorLine).take 10).map strTrim ∧
      (extractBuildSummary output stderr exitCode).warnings =
        (((summaryLines output stderr).filter isWarningLine).take 10).map strTrim ∧
      (extractBuildSummary output stderr exitCode).errors.length ≤ 10 ∧
      (extractBuildSummary output stderr exitCode).warnings.length ≤ 10 ∧
      (extractBuildSummary output stderr exitCode).errorCount =
        ((summaryLines output stderr).filter isErrorLine).length ∧
      (extractBuildSummary output stderr exitCode).warningCount =
        ((summaryLines output stderr).filter isWarningLine).length) := by
  refine ⟨extractBuildSummary_success_iff output stderr exitCode, ?_, ?_, ?_, ?_, ?_, ?_, ?_⟩
  · intro h0 hone herr
    constructor
    · simp only [extractBuildSummary, Bool.and_eq_true, beq_iff_eq,
        decide_eq_true_eq]
      exact ⟨h0, by rw [hone]; exact Nat.one_pos⟩
    · simp only [extractBuildSummary, herr, List.length_nil]
  · simp only [extractBuildSummary]
  · simp only [extractBuildSummary]
  · simp only [extractBuildSummary]
    calc ((((summaryLines output stderr).filter isErrorLine).take 10).map strTrim).length
        = (((summaryLines output stderr).filter isErrorLine).take 10).length :=
          List.length_map _ _
      _ ≤ 10 := List.length_take_le 10 _
  · simp only [extractBuildSummary]
    calc ((((summaryLines output stderr).filter isWarningLine).take 10).map strTrim).length
        = (((summaryLines output stderr).filter isWarningLine).take 10).length :=
          List.length_map _ _
      _ ≤ 10 := List.length_take_le 10 _
  · simp only [extractBuildSummary]
  · simp only [extractBuildSummary]

/-- C7 witness: one success marker, no error markers, exit code 0. -/
theorem claim7_witness :
    (extractBuildSummary "Building target App with configuration Debug\n** BUILD SUCCEEDED **" "" 0).success = true ∧
    (extractBuildSummary "Building target App with configuration Debug\n** BUILD SUCCEEDED **" "" 0).errorCount = 0 :=
  (claim7_build_summary "Building target App with configuration Debug\n** BUILD SUCCEEDED **" "" 0).2.1
    rfl (by decide) (by decide)

/-! ## C9: `isError` negates the raw extractor success, not the
timeout-adjusted one -/

/-- C9.  The tool result's `isError` flag is always the negation of the
raw `extractBuildSummary` success, whereas the response body's `success`
is the timeout-adjusted value; consequently, a timed-out run whose output
carries a success marker with exit code 0 reports `success = false` in the
body and yet `isError = false`. -/
theorem claim9_isError_raw (stdout stderr : String) (code : Int) (timedOut : Bool) :
    ((buildToolFlags stdout stderr code timedOut).isError =
      !(extractBuildSummary stdout stderr code).success) ∧
    ((buildToolFlags stdout stderr code timedOut).bodySuccess =
      ((extractBuildSummary stdout stderr code).success && !timedOut)) ∧
    (timedOut = true → (extractBuildSummary stdout stderr code).success = true →
      (buildToolFlags stdout stderr code timedOut).bodySuccess = false ∧
      (buildToolFlags stdout stderr code timedOut).isError = false) := by
  refine ⟨rfl, rfl, ?_⟩
  intro ht hs
  constructor
  · simp [buildToolFlags, hs, ht]
  · simp [buildToolFlags, hs]

/-- C9 witness: a timed-out run with a success marker and exit code 0. -/
theorem claim9_witness :
    (buildToolFlags "** BUILD SUCCEEDED **" "" 0 true).bodySuccess = false ∧
    (buildToolFlags "** BUILD SUCCEEDED **" "" 0 true).isError = false :=
  (claim9_isError_raw "** BUILD SUCCEEDED **" "" 0 true).2.2 rfl (by decide)

/-! ## Executor lemmas (for C6 and C10) -/

theorem checkPatterns_fields (pats : List String) (chunk : String)
    (st : ExecState) :
    (checkPatterns pats chunk st).stdout = st.stdout ∧
    (checkPatterns pats chunk st).stderr = st.stderr ∧
    (checkPatterns pats chunk st).timedOut = st.timedOut ∧
    (checkPatterns pats chunk st).timeoutCleared = st.timeoutCleared ∧
    (checkPatterns pats chunk st).settled = st.settled := by
  unfold checkPatterns
  split
  · exact ⟨rfl, rfl, rfl, rfl, rfl⟩
  · split
    · exact ⟨rfl, rfl, rfl, rfl, rfl⟩
    · exact ⟨rfl, rfl, rfl, rfl, rfl⟩

theorem settle_stdout (r : Except ExecError StreamResult) (st : ExecState) :
    (settle r st).stdout = st.stdout := by
  unfold settle; split <;> rfl

theorem settle_settled_of_none (r : Except ExecError StreamResult)
    (st : ExecState) (h : st.settled = none) : (settle r st).settled = some r := by
  unfold settle
  rw [h]
  rfl

theorem settle_settled_of_some (r x : Except ExecError StreamResult)
    (st : ExecState) (h : st.settled = some x) :
    (settle r st).settled = some x := by
  unfold settle
  rw [h]
  simpa using h

theorem outLen_append (l r : List StreamEvent) :
    outLen (l ++ r) = outLen l + outLen r := by
  simp [outLen, List.map_append, List.sum_append]

theorem outLen_singleton_out (c : String) :
    outLen [StreamEvent.out c] = c.length := by
  simp [outLen]

theorem outLen_singleton_other (e : StreamEvent) (h : ∀ c, e ≠ .out c) :
    outLen [e] = 0 := by
  cases e with
  | out c => exact absurd rfl (h c)
  | err c => simp [outLen]
  | timeoutFired => simp [outLen]
  | close c => simp [outLen]
  | procError => simp [outLen]

/-- Invariant of a trace body that stays within the buffer: the run is not
yet settled, the timer is not cleared, the accumulated stdout length is the
total of the out-chunks, and `timedOut` records whether the timer fired. -/
theorem execRun_body_inv (B : Nat) (pats : List String) :
    ∀ body : List StreamEvent,
      (∀ e ∈ body, isBodyEvent e = true) →
      outLen body ≤ B →
      (execRun B pats body).settled = none ∧
      (execRun B pats body).timeoutCleared = false ∧
      (execRun B pats body).stdout.length = outLen body ∧
      ((execRun B pats body).timedOut = true ↔ .timeoutFired ∈ body) := by
  intro body
  induction body using List.reverseRecOn with
  | nil =>
    intro _ _
    refine ⟨rfl, rfl, rfl, ?_⟩
    simp [execRun, execInit]
  | append_singleton l e ih =>
    intro hbody hbuf
    have hl : ∀ e' ∈ l, isBodyEvent e' = true := fun e' he' =>
      hbody e' (List.mem_append_left _ he')
    have hlbuf : outLen l ≤ B := le_trans (by rw [outLen_append]; omega) hbuf
    obtain ⟨ihs, ihc, ihl, iht⟩ := ih hl hlbuf
    have hrun : execRun B pats (l ++ [e]) =
        execStep B pats (execRun B pats l) e := by
      simp [execRun, List.foldl_append]
    cases e with
    | out chunk =>
      have hlen : outLen (l ++ [.out chunk]) = outLen l + chunk.length := by
        rw [outLen_append, outLen_singleton_out]
      rw [hrun]
      simp only [execStep]
      obtain ⟨c1, c2, c3, c4, c5⟩ := checkPatterns_fields pats chunk
        { execRun B pats l with stdout := (execRun B pats l).stdout ++ chunk }
      have hsl : (checkPatterns pats chunk
          { execRun B pats l with
            stdout := (execRun B pats l).stdout ++ chunk }).stdout.length =
          outLen l + chunk.length := by
        rw [c1]; simp [String.length_append, ihl]
      have hcond : ¬ ((checkPatterns pats chunk
          { execRun B pats l with
            stdout := (execRun B pats l).stdout ++ chunk }).stdout.length > B) := by
        rw [hsl]
        rw [hlen] at hbuf
        omega
      rw [if_neg hcond]
      refine ⟨by rw [c5]; exact ihs, by rw [c4]; exact ihc, by rw [hsl, hlen], ?_⟩
      rw [c3]
      simp only [List.mem_append, List.mem_singleton]
      constructor
      · intro h; exact Or.inl (iht.mp h)
      · rintro (h | h)
        · exact iht.mpr h
        · exact absurd h (by simp)
    | err chunk =>
      rw [hrun]
      simp only [execStep]
      obtain ⟨c1, c2, c3, c4, c5⟩ := checkPatterns_fields pats chunk
        { execRun B pats l with stderr := (execRun B pats l).stderr ++ chunk }
      have hlen : outLen (l ++ [.err chunk]) = outLen l := by
        rw [outLen_append, outLen_singleton_other _ (by intro c h; cases h)]
        omega
      refine ⟨by rw [c5]; exact ihs, by rw [c4]; exact ihc,
        by rw [c1]; simp only [hlen]; exact ihl, ?_⟩
      rw [c3]
      simp only [List.mem_append, List.mem_singleton]
      constructor
      · intro h; exact Or.inl (iht.mp h)
      · rintro (h | h)
        · exact iht.mpr h
        · exact absurd h (by simp)
    | timeoutFired =>
      rw [hrun]
      simp only [execStep]
      rw [if_neg (by rw [ihc]; simp)]
      have hlen : outLen (l ++ [.timeoutFired]) = outLen l := by
        rw [outLen_append, outLen_singleton_other _ (by intro c h; cases h)]
        omega
      exact ⟨ihs, ihc, by simp only [hlen]; exact ihl, by simp⟩
    | close c =>
      exact absurd (hbody _ (List.mem_append_right _ (List.mem_singleton.mpr rfl)))
        (by simp [isBodyEvent])
    | procError =>
      exact absurd (hbody _ (List.mem_append_right _ (List.mem_singleton.mpr rfl)))
        (by simp [isBodyEvent])

/-! ## C6: timeout completion and exclusivity of result categories -/

/-- C6 counterexample.  The claim says exactly one of {normal exit, fatal
match, timeout} applies to the returned result.  In the run below the
timeout fires, then a chunk matching a fatal pattern is still delivered
before `close`: the promise resolves with `timedOut = true` AND
`fatalMatch` set, so the fatal-match and timeout indications are not
mutually exclusive. -/
theorem claim6_counterexample :
    (execRun 1000 [passcodePattern]
      [.timeoutFired, .out passcodeChunk, .close (some 0)]).settled =
      some (.ok bothFlagsResult) := by
  rfl

/-- C6 (amended).  For a run whose stdout stays within the buffer limit
and whose child eventually closes: the promise resolves (does not reject),
and the result's `timedOut` flag is set exactly when the timer fired
during the run — in particular a timeout elapse is a normal completion
with `timedOut = true`, and a run in which the timer never fired reports
`timedOut = false`.  (Fatal match and timeout may both be indicated, as
the counterexample shows; a result with neither flag is a normal exit.) -/
theorem claim6_timeout_completes (B : Nat) (pats : List String)
    (body : List StreamEvent) (c : Option Int)
    (hbody : ∀ e ∈ body, isBodyEvent e = true)
    (hbuf : outLen body ≤ B) :
    ∃ r : StreamResult,
      (execRun B pats (body ++ [.close c])).settled = some (.ok r) ∧
      (r.timedOut = true ↔ .timeoutFired ∈ body) := by
  obtain ⟨ihs, ihc, ihl, iht⟩ := execRun_body_inv B pats body hbody hbuf
  have hrun : execRun B pats (body ++ [.close c]) =
      execStep B pats (execRun B pats body) (.close c) := by
    simp [execRun, List.foldl_append]
  rw [hrun]
  simp only [execStep]
  refine ⟨_, settle_settled_of_none _ _ (by simpa using ihs), ?_⟩
  simpa using iht

/-- C6 witness: a run with a timeout firing after some output. -/
theorem claim6_witness :
    ∃ r : StreamResult,
      (execRun 100 [] ([StreamEvent.out "partial", .timeoutFired] ++
        [.close (some 0)])).settled = some (.ok r) ∧
      (r.timedOut = true ↔
        StreamEvent.timeoutFired ∈ [StreamEvent.out "partial", .timeoutFired]) :=
  claim6_timeout_completes 100 [] [.out "partial", .timeoutFired] (some 0)
    (by decide) (by decide)

/-! ## C10: only stdout is measured against `maxBuffer` -/

/-- Invariant for the buffer rule: on any trace of data/timer events the
accumulated stdout length is the total of the out-chunks, and the run is
settled — necessarily with the buffer-exceeded rejection — exactly when
that total exceeds the limit, regardless of the stderr volume. -/
theorem execRun_buffer_inv (B : Nat) (pats : List String) :
    ∀ body : List StreamEvent,
      (∀ e ∈ body, isBodyEvent e = true) →
      (execRun B pats body).stdout.length = outLen body ∧
      (execRun B pats body).settled =
        (if outLen body > B then some (.error .bufferExceeded) else none) := by
  intro body
  induction body using List.reverseRecOn with
  | nil =>
    intro _
    refine ⟨rfl, ?_⟩
    simp [execRun, execInit, outLen]
  | append_singleton l e ih =>
    intro hbody
    have hl : ∀ e' ∈ l, isBodyEvent e' = true := fun e' he' =>
      hbody e' (List.mem_append_left _ he')
    obtain ⟨ihl, ihs⟩ := ih hl
    have hrun : execRun B pats (l ++ [e]) =
        execStep B pats (execRun B pats l) e := by
      simp [execRun, List.foldl_append]
    cases e with
    | out chunk =>
      have hlen : outLen (l ++ [.out chunk]) = outLen l + chunk.length := by
        rw [outLen_append, outLen_singleton_out]
      rw [hrun]
      simp only [execStep]
      obtain ⟨c1, c2, c3, c4, c5⟩ := checkPatterns_fields pats chunk
        { execRun B pats l with stdout := (execRun B pats l).stdout ++ chunk }
      have hsl : (checkPatterns pats chunk
          { execRun B pats l with
            stdout := (execRun B pats l).stdout ++ chunk }).stdout.length =
          outLen l + chunk.length := by
        rw [c1]; simp [String.length_append, ihl]
      by_cases hc : outLen l + chunk.length > B
      · rw [if_pos (by rw [hsl]; exact hc)]
        refine ⟨by rw [settle_stdout, hsl, hlen], ?_⟩
        rw [hlen, if_pos hc]
        by_cases hprev : outLen l > B
        · exact settle_settled_of_some _ _ _
            (by rw [c5]; simp only [ihs, if_pos hprev])
        · exact settle_settled_of_none _ _
            (by rw [c5]; simp only [ihs, if_neg hprev])
      · rw [if_neg (by rw [hsl]; exact hc)]
        refine ⟨by rw [hsl, hlen], ?_⟩
        rw [hlen, if_neg hc]
        rw [c5, ihs, if_neg (by omega)]
    | err chunk =>
      have hlen : outLen (l ++ [.err chunk]) = outLen l := by
        rw [outLen_append, outLen_singleton_other _ (by intro c h; cases h)]
        omega
      rw [hrun]
      simp only [execStep]
      obtain ⟨c1, c2, c3, c4, c5⟩ := checkPatterns_fields pats chunk
        { execRun B pats l with stderr := (execRun B pats l).stderr ++ chunk }
      refine ⟨by rw [c1]; simp only [hlen]; exact ihl, ?_⟩
      rw [hlen, c5]
      exact ihs
    | timeoutFired =>
      have hlen : outLen (l ++ [.timeoutFired]) = outLen l := by
        rw [outLen_append, outLen_singleton_other _ (by intro c h; cases h)]
        omega
      rw [hrun]
      simp only [execStep]
      by_cases hc : (execRun B pats l).timeoutCleared = true
      · rw [if_pos hc]
        exact ⟨by rw [hlen]; exact ihl, by rw [hlen]; exact ihs⟩
      · rw [if_neg hc]
        exact ⟨by simp only [hlen]; exact ihl, by simp only [hlen]; exact ihs⟩
    | close c =>
      exact absurd (hbody _ (List.mem_append_right _ (List.mem_singleton.mpr rfl)))
        (by simp [isBodyEvent])
    | procError =>
      exact absurd (hbody _ (List.mem_append_right _ (List.mem_singleton.mpr rfl)))
        (by simp [isBodyEvent])

/-- C10 counterexample.  The claim says stderr never triggers early
termination.  But a stderr chunk matching a fatal pattern does invoke
`child.kill()` (early termination) and records the fatal match — without
settling the promise. -/
theorem claim10_counterexample :
    (execRun (50 * 1024 * 1024) [destErrPattern] [.err destErrChunk]).killed = true ∧
    (execRun (50 * 1024 * 1024) [destErrPattern] [.err destErrChunk]).fatalMatch =
      some destErrPattern ∧
    (execRun (50 * 1024 * 1024) [destErrPattern] [.err destErrChunk]).settled = none := by
  exact ⟨rfl, rfl, rfl⟩

/-- C10 (amended).  Only accumulated stdout is measured against
`maxBuffer`: for any run ending in `close`, the promise rejects with the
buffer-exceeded error exactly when the total stdout alone exceeds the
limit; stderr accumulates without bound and never causes the
buffer-exceeded rejection (although a stderr chunk matching a fatal
pattern still kills the process via the fatal-pattern mechanism, as the
counterexample shows). -/
theorem claim10_buffer_stdout_only (B : Nat) (pats : List String)
    (body : List StreamEvent) (c : Option Int)
    (hbody : ∀ e ∈ body, isBodyEvent e = true) :
    (execRun B pats (body ++ [.close c])).settled =
      some (.error .bufferExceeded) ↔ outLen body > B := by
  obtain ⟨ihl, ihs⟩ := execRun_buffer_inv B pats body hbody
  have hrun : execRun B pats (body ++ [.close c]) =
      execStep B pats (execRun B pats body) (.close c) := by
    simp [execRun, List.foldl_append]
  rw [hrun]
  simp only [execStep]
  by_cases hb : outLen body > B
  · rw [if_pos hb] at ihs
    rw [settle_settled_of_some _ _ _ (by simpa using ihs)]
    simp [hb]
  · rw [if_neg hb] at ihs
    rw [settle_settled_of_none _ _ (by simpa using ihs)]
    simp [hb]

/-- C10 witness: a large stderr chunk does not reject, but four stdout
characters against a three-byte limit do. -/
theorem claim10_witness :
    (execRun 3 [] ([StreamEvent.err "ssssssssss", .out "abcd"] ++
      [.close (some 0)])).settled = some (.error .bufferExceeded) :=
  (claim10_buffer_stdout_only 3 [] [.err "ssssssssss", .out "abcd"] (some 0)
    (by decide)).mpr (by decide)

/-! ## Lemmas on the cache's stable sorts -/

theorem mem_insertByTs (x y : Nat × CachedResponse) :
    ∀ l, y ∈ insertByTs x l ↔ y = x ∨ y ∈ l := by
  intro l
  induction l with
  | nil => simp [insertByTs]
  | cons z zs ih =>
    simp only [insertByTs]
    split
    · rw [List.mem_cons, ih, List.mem_cons]
      tauto
    · exact List.mem_cons

theorem mem_sortByTs (y : Nat × CachedResponse) :
    ∀ l, y ∈ sortByTs l ↔ y ∈ l := by
  intro l
  induction l with
  | nil => simp [sortByTs]
  | cons a l ih =>
    have h : sortByTs (a :: l) = insertByTs a (sortByTs l) := rfl
    rw [h, mem_insertByTs]
    rw [List.mem_cons, ih]

theorem length_insertByTs (x : Nat × CachedResponse) :
    ∀ l, (insertByTs x l).length = l.length + 1 := by
  intro l
  induction l with
  | nil => rfl
  | cons z zs ih =>
    simp only [insertByTs]
    split
    · simp [ih]
    · simp

theorem length_sortByTs : ∀ l, (sortByTs l).length = l.length := by
  intro l
  induction l with
  | nil => rfl
  | cons a l ih =>
    have h : sortByTs (a :: l) = insertByTs a (sortByTs l) := rfl
    rw [h, length_insertByTs, ih]
    rfl

theorem insertByTs_append_last (y x : Nat × CachedResponse)
    (h : y.2.timestamp ≤ x.2.timestamp) :
    ∀ s, insertByTs y (s ++ [x]) = insertByTs y s ++ [x] := by
  intro s
  induction s with
  | nil =>
    simp only [List.nil_append, insertByTs]
    rw [if_neg (by omega)]
    rfl
  | cons z zs ih =>
    simp only [List.cons_append, insertByTs]
    split
    · show z :: insertByTs y (zs ++ [x]) = z :: insertByTs y zs ++ [x]
      rw [ih, List.cons_append]
    · rfl

theorem sortByTs_append_last (x : Nat × CachedResponse) :
    ∀ l, (∀ y ∈ l, y.2.timestamp ≤ x.2.timestamp) →
      sortByTs (l ++ [x]) = sortByTs l ++ [x] := by
  intro l
  induction l with
  | nil => intro _; rfl
  | cons a l ih =>
    intro h
    have h1 : sortByTs ((a :: l) ++ [x]) = insertByTs a (sortByTs (l ++ [x])) := rfl
    rw [h1, ih (fun y hy => h y (List.mem_cons_of_mem a hy)),
      insertByTs_append_last a x (h a (List.mem_cons_self a l))]
    rfl

theorem sortByTs_eq_self :
    ∀ l : List (Nat × CachedResponse),
      l.Pairwise (fun a b => a.2.timestamp ≤ b.2.timestamp) → sortByTs l = l := by
  intro l
  induction l with
  | nil => intro _; rfl
  | cons a l ih =>
    intro hp
    have h1 : sortByTs (a :: l) = insertByTs a (sortByTs l) := rfl
    rw [h1, ih (List.Pairwise.of_cons hp)]
    cases l with
    | nil => rfl
    | cons b l' =>
      have hab : a.2.timestamp ≤ b.2.timestamp :=
        (List.pairwise_cons.mp hp).1 b (List.mem_cons_self b l')
      simp only [insertByTs]
      rw [if_neg (by omega)]

/-! ## C1: `get` immediately after `store` returns the stored payload -/

/-- C1.  For a cache whose entries were all stamped no later than `now`
and whose ids are below the fresh-id counter (both invariants of every
reachable state), `store` followed immediately by `get` on the returned
handle yields exactly the stored payload fields together with the fresh
handle and the creation timestamp `now`. -/
theorem claim1_store_get (now : Nat) (p : ResponsePayload)
    (st : ResponseCacheState)
    (hts : ∀ e ∈ st.entries, e.2.timestamp ≤ now)
    (hid : ∀ e ∈ st.entries, e.1 < st.nextId) :
    (get now (store now p st).1 (store now p st).2).1 =
      some (mkCached st.nextId now p) := by
  set n := st.nextId with hn
  set c := mkCached n now p with hc
  have hxlive : (!expiredAt now c.timestamp) = true := by
    simp [hc, mkCached, expiredAt]
  have hfl : (st.entries ++ [(n, c)]).filter
      (fun e => !expiredAt now e.2.timestamp) =
      st.entries.filter (fun e => !expiredAt now e.2.timestamp) ++ [(n, c)] := by
    rw [List.filter_append]
    congr 1
    simp only [List.filter, hxlive]
  set F := st.entries.filter (fun e => !expiredAt now e.2.timestamp) with hF
  have hFsub : ∀ e ∈ F, e ∈ st.entries := fun e he => (List.mem_filter.mp he).1
  have hFid : ∀ e ∈ F, e.1 ≠ n := fun e he =>
    Nat.ne_of_lt (hid e (hFsub e he))
  have hFts : ∀ e ∈ F, e.2.timestamp ≤ c.timestamp := fun e he => by
    have := hts e (hFsub e he)
    simpa [hc, mkCached] using this
  have hstore : (store now p st).1 = n ∧
      (store now p st).2 = cleanup now
        { entries := st.entries ++ [(n, c)], nextId := n + 1 } := ⟨rfl, rfl⟩
  rw [hstore.1, hstore.2]
  unfold cleanup
  simp only [hfl]
  by_cases hover : (F ++ [(n, c)]).length > maxEntries
  · rw [if_pos hover]
    have hsorted : sortByTs (F ++ [(n, c)]) = sortByTs F ++ [(n, c)] :=
      sortByTs_append_last (n, c) F hFts
    rw [hsorted]
    have hk : (F ++ [(n, c)]).length - maxEntries ≤ (sortByTs F).length := by
      rw [length_sortByTs]
      simp only [List.length_append, List.length_singleton] at hover ⊢
      have : maxEntries = 100 := rfl
      omega
    rw [List.take_append_of_le_length hk]
    set removeIds := ((sortByTs F).take
      ((F ++ [(n, c)]).length - maxEntries)).map Prod.fst with hrem
    have hnotmem : n ∉ removeIds := by
      intro hmem
      obtain ⟨e, he, hee⟩ := List.mem_map.mp hmem
      have : e ∈ F := (mem_sortByTs e F).mp (List.mem_of_mem_take he)
      exact hFid e this hee
    have hfilter : (F ++ [(n, c)]).filter (fun e => !removeIds.contains e.1) =
        F.filter (fun e => !removeIds.contains e.1) ++ [(n, c)] := by
      rw [List.filter_append]
      congr 1
      have : removeIds.contains n = false := by
        simpa using hnotmem
      simp only [List.filter, this, Bool.not_false]
    rw [hfilter]
    have hlook : ((F.filter (fun e => !removeIds.contains e.1)) ++
        [(n, c)]).lookup n = some c :=
      lookup_append_last n c _ (fun e he =>
        hFid e (List.mem_filter.mp he).1)
    simp only [get, hlook]
    rw [if_neg (by simp [hc, mkCached, expiredAt])]
  · rw [if_neg hover]
    have hlook : (F ++ [(n, c)]).lookup n = some c :=
      lookup_append_last n c F hFid
    simp only [get, hlook]
    rw [if_neg (by simp [hc, mkCached, expiredAt])]

/-- C1 witness: store into the empty cache at time 1000 and read back. -/
theorem claim1_witness :
    (get 1000 (store 1000 listPayload emptyCache).1
      (store 1000 listPayload emptyCache).2).1 =
      some (mkCached 0 1000 listPayload) :=
  claim1_store_get 1000 listPayload emptyCache (by decide) (by decide)

/-! ## Lemmas on `labelFrom` and the `storeMany` invariant (C3, C8) -/

theorem labelFrom_append (l r : List (Nat × ResponsePayload)) :
    ∀ i, labelFrom i (l ++ r) = labelFrom i l ++ labelFrom (i + l.length) r := by
  induction l with
  | nil => intro i; simp [labelFrom]
  | cons tp l ih =>
    intro i
    cases tp with
    | mk t p =>
      show (i, mkCached i t p) :: labelFrom (i + 1) (l ++ r) =
        ((i, mkCached i t p) :: labelFrom (i + 1) l) ++
          labelFrom (i + (l.length + 1)) r
      rw [ih (i + 1), List.cons_append]
      have h2 : i + 1 + l.length = i + (l.length + 1) := by omega
      rw [h2]

theorem labelFrom_length (l : List (Nat × ResponsePayload)) :
    ∀ i, (labelFrom i l).length = l.length := by
  induction l with
  | nil => intro i; rfl
  | cons tp l ih =>
    intro i
    cases tp with
    | mk t p => simp only [labelFrom, List.length_cons, ih (i + 1)]

theorem labelFrom_timestamp_mem (l : List (Nat × ResponsePayload)) :
    ∀ i, ∀ e ∈ labelFrom i l, e.2.timestamp ∈ l.map Prod.fst := by
  induction l with
  | nil => intro i e he; exact absurd he (by simp [labelFrom])
  | cons tp l ih =>
    intro i e he
    cases tp with
    | mk t p =>
      simp only [labelFrom, List.mem_cons] at he
      rcases he with he | he
      · subst he; simp [mkCached]
      · simp only [List.map_cons, List.mem_cons]
        exact Or.inr (ih (i + 1) e he)

theorem labelFrom_id_ge (l : List (Nat × ResponsePayload)) :
    ∀ i, ∀ e ∈ labelFrom i l, i ≤ e.1 := by
  induction l with
  | nil => intro i e he; exact absurd he (by simp [labelFrom])
  | cons tp l ih =>
    intro i e he
    cases tp with
    | mk t p =>
      simp only [labelFrom, List.mem_cons] at he
      rcases he with he | he
      · subst he; exact le_refl i
      · exact le_trans (Nat.le_succ i) (ih (i + 1) e he)

theorem labelFrom_pairwise_ts (l : List (Nat × ResponsePayload))
    (hsort : (l.map Prod.fst).Pairwise (· ≤ ·)) :
    ∀ i, (labelFrom i l).Pairwise (fun a b => a.2.timestamp ≤ b.2.timestamp) := by
  induction l with
  | nil => intro i; simp [labelFrom]
  | cons tp l ih =>
    intro i
    cases tp with
    | mk t p =>
      simp only [List.map_cons, List.pairwise_cons] at hsort
      simp only [labelFrom, List.pairwise_cons]
      refine ⟨?_, ih hsort.2 (i + 1)⟩
      intro e he
      have := labelFrom_timestamp_mem l (i + 1) e he
      simpa [mkCached] using hsort.1 e.2.timestamp this

/-- The `storeMany` invariant: starting from the empty cache, a sequence
of stores at non-decreasing times, all within one `maxAge` window, leaves
exactly the most recent `min maxEntries n` stored entries, in insertion
order with consecutive fresh ids. -/
theorem storeMany_entries (ps : List (Nat × ResponsePayload))
    (hsort : (ps.map Prod.fst).Pairwise (· ≤ ·))
    (hwin : ∀ s ∈ ps.map Prod.fst, ∀ t ∈ ps.map Prod.fst, s - t ≤ maxAge) :
    (storeMany ps emptyCache).entries =
      labelFrom (ps.length - maxEntries) (ps.drop (ps.length - maxEntries)) ∧
    (storeMany ps emptyCache).nextId = ps.length := by
  induction ps using List.reverseRecOn with
  | nil => exact ⟨rfl, rfl⟩
  | append_singleton qs tp ih =>
    obtain ⟨t, p⟩ := tp
    have hmapapp : (qs ++ [(t, p)]).map Prod.fst = qs.map Prod.fst ++ [t] := by
      simp
    rw [hmapapp] at hsort hwin
    have hsort' : (qs.map Prod.fst).Pairwise (· ≤ ·) :=
      hsort.sublist (List.sublist_append_left _ _)
    have hcross : ∀ s ∈ qs.map Prod.fst, s ≤ t := by
      intro s hs
      have := (List.pairwise_append.mp hsort).2.2 s hs t (List.mem_singleton.mpr rfl)
      exact this
    have hwin' : ∀ s ∈ qs.map Prod.fst, ∀ u ∈ qs.map Prod.fst, s - u ≤ maxAge :=
      fun s hs u hu => hwin s (List.mem_append_left _ hs) u (List.mem_append_left _ hu)
    have htw : ∀ u ∈ qs.map Prod.fst, t - u ≤ maxAge :=
      fun u hu => hwin t (List.mem_append_right _ (List.mem_singleton.mpr rfl)) u
        (List.mem_append_left _ hu)
    obtain ⟨ihE, ihN⟩ := ih hsort' hwin'
    have hme : maxEntries = 100 := rfl
    set n := qs.length with hn
    set d := n - maxEntries with hd
    set E := labelFrom d (qs.drop d) with hE
    have hrun : storeMany (qs ++ [(t, p)]) emptyCache =
        (store t p (storeMany qs emptyCache)).2 := by
      simp [storeMany, List.foldl_append]
    rw [hrun]
    have hstore : (store t p (storeMany qs emptyCache)).2 =
        cleanup t { entries := E ++ [(n, mkCached n t p)], nextId := n + 1 } := by
      simp only [store, ihE, ihN]
    rw [hstore]
    set x : Nat × CachedResponse := (n, mkCached n t p) with hx
    have hElive : ∀ e ∈ E ++ [x], (!expiredAt t e.2.timestamp) = true := by
      intro e he
      rcases List.mem_append.mp he with he | he
      · have hts := labelFrom_timestamp_mem (qs.drop d) d e he
        rw [List.map_drop] at hts
        have hmem : e.2.timestamp ∈ qs.map Prod.fst :=
          (List.drop_sublist d (qs.map Prod.fst)).mem hts
        have := htw e.2.timestamp hmem
        simp [expiredAt]
        omega
      · have : e = x := List.mem_singleton.mp he
        subst this
        simp [hx, mkCached, expiredAt]
    have hfl : (E ++ [x]).filter (fun e => !expiredAt t e.2.timestamp) = E ++ [x] :=
      List.filter_eq_self.mpr hElive
    have hElen : E.length = n - d := by
      rw [hE, labelFrom_length, List.length_drop]
    unfold cleanup
    simp only [hfl]
    by_cases hover : (E ++ [x]).length > maxEntries
    · -- the cache was full: the single oldest entry is evicted
      rw [if_pos hover]
      have hnge : maxEntries ≤ n := by
        simp only [List.length_append, List.length_singleton] at hover
        omega
      have hd0 : d = n - maxEntries := hd
      have hElen' : E.length = maxEntries := by omega
      -- the live list is already sorted by timestamp, so the sort is the identity
      have hEp : E.Pairwise (fun a b => a.2.timestamp ≤ b.2.timestamp) := by
        rw [hE]
        apply labelFrom_pairwise_ts
        exact hsort'.sublist ((List.drop_sublist d qs).map Prod.fst)
      have hpair : (E ++ [x]).Pairwise (fun a b => a.2.timestamp ≤ b.2.timestamp) := by
        rw [List.pairwise_append]
        refine ⟨hEp, List.pairwise_singleton _ _, ?_⟩
        intro a ha b hb
        have hb' : b = x := List.mem_singleton.mp hb
        subst hb'
        have hts := labelFrom_timestamp_mem (qs.drop d) d a ha
        rw [List.map_drop] at hts
        have hmem : a.2.timestamp ∈ qs.map Prod.fst :=
          (List.drop_sublist d (qs.map Prod.fst)).mem hts
        simpa [hx, mkCached] using hcross a.2.timestamp hmem
      rw [sortByTs_eq_self _ hpair]
      -- E is nonempty; expose its head
      obtain ⟨tp0, rest, hdrop⟩ : ∃ tp0 rest, qs.drop d = tp0 :: rest := by
        have : 0 < (qs.drop d).length := by
          rw [List.length_drop]; omega
        cases hqd : qs.drop d with
        | nil => rw [hqd] at this; simp at this
        | cons a b => exact ⟨a, b, rfl⟩
      obtain ⟨t0, p0⟩ := tp0
      have hEcons : E = (d, mkCached d t0 p0) :: labelFrom (d + 1) rest := by
        rw [hE, hdrop]; rfl
      have hklen : (E ++ [x]).length - maxEntries = 1 := by
        simp only [List.length_append, List.length_singleton]
        omega
      rw [hklen, hEcons]
      have htake : (((d, mkCached d t0 p0) :: labelFrom (d + 1) rest) ++ [x]).take 1 =
          [(d, mkCached d t0 p0)] := by rfl
      rw [htake]
      have hrest_id : ∀ e ∈ labelFrom (d + 1) rest ++ [x], e.1 ≠ d := by
        intro e he
        rcases List.mem_append.mp he with he | he
        · have := labelFrom_id_ge rest (d + 1) e he
          omega
        · have : e = x := List.mem_singleton.mp he
          subst this
          simp only [hx]
          omega
      have hfilter : (((d, mkCached d t0 p0) :: labelFrom (d + 1) rest) ++ [x]).filter
          (fun e => !([(d, mkCached d t0 p0)].map Prod.fst).contains e.1) =
          labelFrom (d + 1) rest ++ [x] := by
        simp only [List.map_cons, List.map_nil, List.cons_append]
        rw [List.filter_cons]
        rw [if_neg (by simp)]
        apply List.filter_eq_self.mpr
        intro e he
        have := hrest_id e he
        simpa using this
      rw [hfilter]
      -- identify the result with the labelled suffix of `qs ++ [(t, p)]`
      have hrest : rest = qs.drop (d + 1) := by
        have h1 : (qs.drop d).drop 1 = qs.drop (d + 1) := by
          rw [List.drop_drop]
        rw [hdrop] at h1
        simpa using h1
      have hrlen : rest.length = maxEntries - 1 := by
        have h1 : (qs.drop d).length = rest.length + 1 := by rw [hdrop]; rfl
        rw [List.length_drop] at h1
        omega
      have hd' : (qs ++ [(t, p)]).length - maxEntries = d + 1 := by
        simp only [List.length_append, List.length_singleton]
        omega
      have hdropapp : (qs ++ [(t, p)]).drop (d + 1) = qs.drop (d + 1) ++ [(t, p)] := by
        rw [List.drop_append_eq_append_drop]
        have : d + 1 - qs.length = 0 := by omega
        rw [this]
        rfl
      constructor
      · rw [hd', hdropapp, ← hrest, labelFrom_append]
        have : d + 1 + rest.length = n := by omega
        rw [this]
        rfl
      · simp
    · -- still within capacity: nothing is evicted
      rw [if_neg hover]
      have hnlt : n < maxEntries := by
        simp only [List.length_append, List.length_singleton] at hover
        omega
      have hd0 : d = 0 := by omega
      have hd' : (qs ++ [(t, p)]).length - maxEntries = 0 := by
        simp only [List.length_append, List.length_singleton]
        omega
      constructor
      · rw [hd', List.drop_zero, labelFrom_append]
        simp only [hE, hd0, List.drop_zero, Nat.zero_add]
        rfl
      · simp

/-- C3.  Every store triggers cleanup (purge expired, then evict
oldest-first down to `maxEntries`); storing more than `maxEntries`
non-expired responses (non-decreasing timestamps within one `maxAge`
window) leaves exactly `maxEntries` entries: precisely the most recently
stored ones, in insertion order. -/
theorem claim3_capacity_eviction (ps : List (Nat × ResponsePayload))
    (hsort : (ps.map Prod.fst).Pairwise (· ≤ ·))
    (hwin : ∀ s ∈ ps.map Prod.fst, ∀ t ∈ ps.map Prod.fst, s - t ≤ maxAge)
    (hlen : ps.length > maxEntries) :
    (storeMany ps emptyCache).entries =
      labelFrom (ps.length - maxEntries) (ps.drop (ps.length - maxEntries)) ∧
    (storeMany ps emptyCache).entries.length = maxEntries := by
  obtain ⟨hE, _⟩ := storeMany_entries ps hsort hwin
  refine ⟨hE, ?_⟩
  rw [hE, labelFrom_length, List.length_drop]
  omega

/-- C3 witness: 101 stores at one instant leave exactly 100 entries — the
ones with ids 1..100, i.e. all but the first stored. -/
theorem claim3_witness :
    (storeMany (List.replicate 101 (5, listPayload)) emptyCache).entries.length =
      maxEntries :=
  (claim3_capacity_eviction (List.replicate 101 (5, listPayload))
    (by rw [List.map_replicate]; exact List.pairwise_replicate.mpr (Or.inr le_rfl))
    (by
      intro s hs u hu
      rw [List.map_replicate, List.mem_replicate] at hs hu
      rw [hs.2, hu.2]
      simp [maxAge])
    (by simp [maxEntries])).2

/-! ## C8: `getRecentByTool` — filter, order, truncation, and the missing
expiry check -/

theorem mem_insertByTsDesc (x y : CachedResponse) :
    ∀ l, y ∈ insertByTsDesc x l ↔ y = x ∨ y ∈ l := by
  intro l
  induction l with
  | nil => simp [insertByTsDesc]
  | cons z zs ih =>
    simp only [insertByTsDesc]
    split
    · rw [List.mem_cons, ih, List.mem_cons]
      tauto
    · exact List.mem_cons

theorem mem_sortByTsDesc (y : CachedResponse) :
    ∀ l, y ∈ sortByTsDesc l ↔ y ∈ l := by
  intro l
  induction l with
  | nil => simp [sortByTsDesc]
  | cons a l ih =>
    have h : sortByTsDesc (a :: l) = insertByTsDesc a (sortByTsDesc l) := rfl
    rw [h, mem_insertByTsDesc]
    rw [List.mem_cons, ih]

theorem length_insertByTsDesc (x : CachedResponse) :
    ∀ l, (insertByTsDesc x l).length = l.length + 1 := by
  intro l
  induction l with
  | nil => rfl
  | cons z zs ih =>
    simp only [insertByTsDesc]
    split
    · simp [ih]
    · simp

theorem length_sortByTsDesc : ∀ l, (sortByTsDesc l).length = l.length := by
  intro l
  induction l with
  | nil => rfl
  | cons a l ih =>
    have h : sortByTsDesc (a :: l) = insertByTsDesc a (sortByTsDesc l) := rfl
    rw [h, length_insertByTsDesc, ih]
    rfl

theorem pairwise_insertByTsDesc (x : CachedResponse) :
    ∀ l, l.Pairwise (fun a b => b.timestamp ≤ a.timestamp) →
      (insertByTsDesc x l).Pairwise (fun a b => b.timestamp ≤ a.timestamp) := by
  intro l
  induction l with
  | nil => intro _; simp [insertByTsDesc]
  | cons y ys ih =>
    intro hp
    obtain ⟨hy, hys⟩ := List.pairwise_cons.mp hp
    simp only [insertByTsDesc]
    split
    · rename_i hgt
      rw [List.pairwise_cons]
      refine ⟨?_, ih hys⟩
      intro z hz
      rcases (mem_insertByTsDesc x z ys).mp hz with hz | hz
      · subst hz; omega
      · exact hy z hz
    · rename_i hle
      rw [List.pairwise_cons]
      refine ⟨?_, hp⟩
      intro z hz
      rcases List.mem_cons.mp hz with hz | hz
      · subst hz; omega
      · have := hy z hz
        omega

theorem pairwise_sortByTsDesc :
    ∀ l, (sortByTsDesc l).Pairwise (fun a b => b.timestamp ≤ a.timestamp) := by
  intro l
  induction l with
  | nil => simp [sortByTsDesc]
  | cons a l ih =>
    have h : sortByTsDesc (a :: l) = insertByTsDesc a (sortByTsDesc l) := rfl
    rw [h]
    exact pairwise_insertByTsDesc a _ ih

/-- C8 counterexample.  The claim says `getRecentByTool` returns exactly
the non-expired matching entries.  But the source performs no expiry check
there: after one store at time 0, at time 1800001 (age > `maxAge`) the
entry is unreachable via `get`, yet `getRecentByTool` still returns it. -/
theorem claim8_counterexample :
    getRecentByTool "simctl-list" 5 (store 0 listPayload emptyCache).2 =
      [mkCached 0 0 listPayload] ∧
    expiredAt 1800001 (mkCached 0 0 listPayload).timestamp = true ∧
    (get 1800001 0 (store 0 listPayload emptyCache).2).1 = none := by
  exact ⟨rfl, rfl, rfl⟩

/-- C8 (amended).  `getRecentByTool(tool, limit)` returns exactly the
cached entries whose tool field matches — including expired entries not
yet purged, since no expiry check is performed — sorted by creation
timestamp descending, truncated to `limit`; in particular, after storing
three responses for a tool at increasing times (within one expiry window,
so that `store`'s own cleanup purges nothing), `getRecentByTool(tool, 2)`
returns exactly the two most recently stored, newest first. -/
theorem claim8_recent_by_tool (tool : String) (limit : Nat)
    (st : ResponseCacheState) :
    ((getRecentByTool tool limit st).length =
      min limit (((st.entries.map Prod.snd).filter
        (fun c => c.tool == tool)).length)) ∧
    (∀ c ∈ getRecentByTool tool limit st,
      c.tool = tool ∧ c ∈ st.entries.map Prod.snd) ∧
    ((getRecentByTool tool limit st).Pairwise
      (fun a b => b.timestamp ≤ a.timestamp)) ∧
    (∀ (p1 p2 p3 : ResponsePayload) (t1 t2 t3 : Nat),
      p1.tool = tool → p2.tool = tool → p3.tool = tool →
      t1 < t2 → t2 < t3 →
      t2 - t1 ≤ maxAge → t3 - t1 ≤ maxAge → t3 - t2 ≤ maxAge →
      getRecentByTool tool 2
          (storeMany [(t1, p1), (t2, p2), (t3, p3)] emptyCache) =
        [mkCached 2 t3 p3, mkCached 1 t2 p2]) := by
  refine ⟨?_, ?_, ?_, ?_⟩
  · unfold getRecentByTool
    rw [List.length_take, length_sortByTsDesc]
  · intro c hc
    unfold getRecentByTool at hc
    have hc1 := (mem_sortByTsDesc c _).mp (List.mem_of_mem_take hc)
    have hc2 := List.mem_filter.mp hc1
    exact ⟨by simpa using hc2.2, hc2.1⟩
  · unfold getRecentByTool
    exact (pairwise_sortByTsDesc _).sublist (List.take_sublist _ _)
  · intro p1 p2 p3 t1 t2 t3 h1 h2 h3 h12 h23 hw1 hw2 hw3
    have h13 : t1 < t3 := lt_trans h12 h23
    have hE := (storeMany_entries [(t1, p1), (t2, p2), (t3, p3)]
      (by
        simp only [List.map_cons, List.map_nil, List.pairwise_cons,
          List.mem_cons, List.mem_singleton]
        refine ⟨?_, ?_, by simp⟩
        · intro a ha
          rcases ha with ha | ha | ha
          · omega
          · omega
          · exact absurd ha (by simp)
        · intro a ha
          rcases ha with ha | ha
          · omega
          · exact absurd ha (by simp))
      (by
        intro s hs u hu
        simp only [List.map_cons, List.map_nil, List.mem_cons,
          List.not_mem_nil, or_false] at hs hu
        rcases hs with hs | hs | hs <;> rcases hu with hu | hu | hu <;>
          rw [hs, hu] <;> omega)).1
    have hd : ([(t1, p1), (t2, p2), (t3, p3)] :
        List (Nat × ResponsePayload)).length - maxEntries = 0 := by
      simp [maxEntries]
    rw [hd, List.drop_zero] at hE
    unfold getRecentByTool
    rw [hE]
    show (sortByTsDesc (List.filter (fun c => c.tool == tool)
      [mkCached 0 t1 p1, mkCached 1 t2 p2, mkCached 2 t3 p3])).take 2 = _
    have hf : List.filter (fun c => c.tool == tool)
        [mkCached 0 t1 p1, mkCached 1 t2 p2, mkCached 2 t3 p3] =
        [mkCached 0 t1 p1, mkCached 1 t2 p2, mkCached 2 t3 p3] := by
      apply List.filter_eq_self.mpr
      intro c hc
      rcases List.mem_cons.mp hc with hc | hc
      · subst hc; simp [mkCached, h1]
      rcases List.mem_cons.mp hc with hc | hc
      · subst hc; simp [mkCached, h2]
      · have : c = mkCached 2 t3 p3 := by simpa using hc
        subst this; simp [mkCached, h3]
    rw [hf]
    have hs3 : sortByTsDesc [mkCached 0 t1 p1, mkCached 1 t2 p2, mkCached 2 t3 p3] =
        [mkCached 2 t3 p3, mkCached 1 t2 p2, mkCached 0 t1 p1] := by
      show insertByTsDesc (mkCached 0 t1 p1)
        (insertByTsDesc (mkCached 1 t2 p2)
          (insertByTsDesc (mkCached 2 t3 p3) [])) = _
      have e2 : insertByTsDesc (mkCached 1 t2 p2)
          (insertByTsDesc (mkCached 2 t3 p3) []) =
          [mkCached 2 t3 p3, mkCached 1 t2 p2] := by
        show insertByTsDesc (mkCached 1 t2 p2) [mkCached 2 t3 p3] = _
        simp only [insertByTsDesc]
        rw [if_pos (show (mkCached 2 t3 p3).timestamp >
          (mkCached 1 t2 p2).timestamp from h23)]
      rw [e2]
      simp only [insertByTsDesc]
      rw [if_pos (show (mkCached 2 t3 p3).timestamp >
        (mkCached 0 t1 p1).timestamp from h13),
        if_pos (show (mkCached 1 t2 p2).timestamp >
          (mkCached 0 t1 p1).timestamp from h12)]
    rw [hs3]
    rfl

/-- C8 witness: three stores for the build tool at times 10 < 20 < 30;
the two most recent come back, newest first. -/
theorem claim8_witness :
    getRecentByTool "xcodebuild-build" 2
        (storeMany [(10, buildPayload), (20, buildPayload), (30, buildPayload)]
          emptyCache) =
      [mkCached 2 30 buildPayload, mkCached 1 20 buildPayload] :=
  (claim8_recent_by_tool "xcodebuild-build" 2 emptyCache).2.2.2
    buildPayload buildPayload buildPayload 10 20 30
    rfl rfl rfl (by omega) (by omega) (by decide) (by decide) (by decide)

/-! ## C5: destination resolution lemmas -/

theorem takeWhile_until_comma (tail : List Char) :
    ∀ cap : List Char, (∀ c ∈ cap, c ≠ ',') →
      (cap ++ ',' :: tail).takeWhile (fun ch => !(ch == ',')) = cap := by
  intro cap
  induction cap with
  | nil =>
    intro _
    simp [List.takeWhile]
  | cons c cs ih =>
    intro h
    have hc : (c == ',') = false :=
      beq_false_of_ne (h c (List.mem_cons_self c cs))
    simp only [List.cons_append, List.takeWhile, hc, Bool.not_false]
    show c :: List.takeWhile (fun ch => !(ch == ',')) (cs ++ ',' :: tail) = c :: cs
    rw [ih (fun c' hc' => h c' (List.mem_cons_of_mem c hc'))]

theorem findPlatformCapture_anchor (cap tail : List Char)
    (hne : cap ≠ []) (hnc : ∀ c ∈ cap, c ≠ ',') :
    findPlatformCapture ("platform=".toList ++ (cap ++ ',' :: tail)) =
      some (String.mk cap) := by
  show findPlatformCapture ('p' :: ("latform=".toList ++ (cap ++ ',' :: tail))) =
    some (String.mk cap)
  rw [findPlatformCapture]
  have hpe : platformEqAt ('p' :: ("latform=".toList ++ (cap ++ ',' :: tail))) = true := by
    unfold platformEqAt
    have h9 : ('p' :: ("latform=".toList ++ (cap ++ ',' :: tail))).take 9 =
        "platform=".toList := by
      show ("platform=".toList ++ (cap ++ ',' :: tail)).take 9 = "platform=".toList
      exact List.take_left' rfl
    rw [h9]
    decide
  rw [if_pos hpe]
  have hdrop : ('p' :: ("latform=".toList ++ (cap ++ ',' :: tail))).drop 9 =
      cap ++ ',' :: tail := by
    show ("platform=".toList ++ (cap ++ ',' :: tail)).drop 9 = cap ++ ',' :: tail
    exact List.drop_left' rfl
  rw [hdrop, takeWhile_until_comma tail cap hnc]
  rw [if_neg (by simpa using hne)]

theorem strMk_toList (s : String) : String.mk s.toList = s := rfl

/-- The platform derived from a destination built by
`buildDestinationFromUdid` with a runtime whose label is comma-free is the
platform of that label, whatever the udid. -/
theorem derivePlatform_buildDest (u r label : String)
    (hl : platformLabelFromRuntime r = some label)
    (hne : label.toList ≠ [])
    (hnc : ∀ c ∈ label.toList, c ≠ ',') :
    derivePlatformFromDestination (some (buildDestinationFromUdid u (some r))) =
      derivePlatformFromToken (some label) := by
  have hbd : buildDestinationFromUdid u (some r) =
      "platform=" ++ label ++ ",id=" ++ u := by
    simp only [buildDestinationFromUdid, hl]
  rw [hbd]
  have htl : ("platform=" ++ label ++ ",id=" ++ u).toList =
      "platform=".toList ++ (label.toList ++ ',' :: ("id=".toList ++ u.toList)) := by
    show ("platform=" ++ label ++ ",id=" ++ u).data =
      "platform=".data ++ (label.data ++ ',' :: ("id=".data ++ u.data))
    simp [String.data_append]
  have hnemp : ("platform=" ++ label ++ ",id=" ++ u) ≠ "" := by
    intro h
    have := congrArg String.toList h
    rw [htl] at this
    simp at this
  simp only [derivePlatformFromDestination]
  rw [if_neg (by simpa using hnemp)]
  rw [htl, findPlatformCapture_anchor label.toList ("id=".toList ++ u.toList) hne hnc]
  show derivePlatformFromToken (some (String.mk label.toList)) =
    derivePlatformFromToken (some label)
  rw [strMk_toList]

theorem findRuntimeForUdid_mem (list : SimListing) (udid r : String)
    (h : findRuntimeForUdid list udid = some r) :
    r ∈ list.devices.map Prod.fst := by
  unfold findRuntimeForUdid at h
  cases hf : list.devices.find? (fun rd => rd.2.any (fun d => d.udid == udid)) with
  | none => rw [hf] at h; exact absurd h (by simp)
  | some rd =>
    rw [hf] at h
    have hmem := List.mem_of_find?_eq_some hf
    have : rd.1 = r := by simpa using h
    rw [← this]
    exact List.mem_map.mpr ⟨rd, hmem, rfl⟩

theorem scanListForHint_shape (p d : String) :
    ∀ ds : List (String × List SimDevice),
      scanListForHint (some p) ds = some d →
      ∃ u r, r ∈ ds.map Prod.fst ∧ runtimeMatchesPlatform r p = true ∧
        d = buildDestinationFromUdid u (some r) := by
  intro ds
  induction ds with
  | nil => intro h; exact absurd h (by simp [scanListForHint])
  | cons rd rest ih =>
    intro h
    obtain ⟨runtime, devices⟩ := rd
    unfold scanListForHint at h
    by_cases hm : runtimeMatchesPlatform runtime p = true
    · rw [if_neg (by simp [hm])] at h
      cases hf : devices.find? (fun dev => dev.isAvailable) with
      | none =>
        rw [hf] at h
        obtain ⟨u, r, hr, hrm, hd⟩ := ih h
        exact ⟨u, r, List.mem_cons_of_mem _ hr, hrm, hd⟩
      | some dev =>
        rw [hf] at h
        refine ⟨dev.udid, runtime, ?_, hm, ?_⟩
        · simp
        · have := Option.some_inj.mp h
          exact this.symm
    · rw [if_pos (by simp [hm])] at h
      obtain ⟨u, r, hr, hrm, hd⟩ := ih h
      exact ⟨u, r, List.mem_cons_of_mem _ hr, hrm, hd⟩

theorem getSmartSimulatorDestination_shape (sim : Option SimDevice)
    (list : SimListing) (p d : String)
    (h : getSmartSimulatorDestination sim list (some p) = some d) :
    ∃ u r, r ∈ list.devices.map Prod.fst ∧ runtimeMatchesPlatform r p = true ∧
      d = buildDestinationFromUdid u (some r) := by
  cases sim with
  | none =>
    simp only [getSmartSimulatorDestination] at h
    exact scanListForHint_shape p d list.devices h
  | some s =>
    simp only [getSmartSimulatorDestination] at h
    cases hr : findRuntimeForUdid list s.udid with
    | none =>
      rw [hr] at h
      rw [if_neg (by simp)] at h
      exact scanListForHint_shape p d list.devices h
    | some r =>
      rw [hr] at h
      by_cases hm : runtimeMatchesPlatform r p = true
      · rw [if_pos (by simp [hm])] at h
        exact ⟨s.udid, r, findRuntimeForUdid_mem list s.udid r hr, hm,
          (Option.some_inj.mp h).symm⟩
      · rw [if_neg (by simp [hm])] at h
        exact scanListForHint_shape p d list.devices h

theorem resolveFromSdkAndSims_some (sp : String) (b : Bool)
    (sim : Option SimDevice) (list : SimListing) (hmac : sp ≠ "macos") :
    resolveFromSdkAndSims { platform := some sp, isSimulator := b } sim list =
      if b then getSmartSimulatorDestination sim list (some sp) else none := by
  have hc : ((some sp : Option String) == some "macos") = false :=
    beq_false_of_ne (fun h => hmac (Option.some_inj.mp h))
  unfold resolveFromSdkAndSims
  cases b <;> simp [hc]

theorem resolveFromSdkAndSims_macos (b : Bool) (sim : Option SimDevice)
    (list : SimListing) :
    resolveFromSdkAndSims { platform := some "macos", isSimulator := b }
      sim list = none := by
  simp [resolveFromSdkAndSims]

theorem resolveDestination_no_explicit (pc : Option BuildConfig)
    (sdk : Option String) (sim : Option SimDevice) (list : SimListing) :
    resolveDestination none pc sdk sim list = resolveFromCaches pc sdk sim list := by
  simp [resolveDestination]

/-- C5.  With no explicit destination: (a) a non-empty cached preferred
destination is returned verbatim whenever its derived platform is
compatible with the SDK's platform hint (either side unknown, or equal);
(b) when both platforms are known and differ, the cached destination is
not reused — for any snapshot whose hint-matching runtimes produce
destinations deriving to the hint's platform (true of every canonical
runtime identifier, cf. `derivePlatform_buildDest`), the resolver's answer
is never that cached string; (c) with SDK `"macosx"` and a cached
destination deriving to one of the simulator OS families, the resolver
returns no destination at all. -/
theorem claim5_destination_resolution (pc : BuildConfig) (dest : String)
    (sim : Option SimDevice) (list : SimListing)
    (hdest : pc.destination = some dest) (hne : dest ≠ "") :
    (∀ sdk : Option String,
      platformsCompatible (deriveSdkInfo sdk).platform
          (derivePlatformFromDestination (some dest)) = true →
      resolveDestination none (some pc) sdk sim list = some dest) ∧
    (∀ (sdk : Option String) (sp dp : String),
      (deriveSdkInfo sdk).platform = some sp →
      derivePlatformFromDestination (some dest) = some dp →
      sp ≠ dp →
      (∀ r ∈ list.devices.map Prod.fst, runtimeMatchesPlatform r sp = true →
        ∀ u : String, derivePlatformFromDestination
          (some (buildDestinationFromUdid u (some r))) = some sp) →
      resolveDestination none (some pc) sdk sim list ≠ some dest) ∧
    (derivePlatformFromDestination (some dest) ∈
        ([some "ios", some "tvos", some "watchos", some "visionos"] :
          List (Option String)) →
      resolveDestination none (some pc) (some "macosx") sim list = none) := by
  have hb : (dest == "") = false := beq_false_of_ne hne
  refine ⟨?_, ?_, ?_⟩
  · intro sdk hcompat
    rw [resolveDestination_no_explicit]
    simp only [resolveFromCaches, hdest, hb, Bool.not_false, if_true, hcompat]
  · intro sdk sp dp hsp hdp hne' hwf
    rw [resolveDestination_no_explicit]
    have hcompat : platformsCompatible (deriveSdkInfo sdk).platform
        (derivePlatformFromDestination (some dest)) = false := by
      rw [hsp, hdp]
      simpa [platformsCompatible] using hne'
    simp only [resolveFromCaches, hdest, hb, Bool.not_false, if_true, hcompat,
      Bool.false_eq_true, if_false]
    have hrec : deriveSdkInfo sdk =
        { platform := some sp, isSimulator := (deriveSdkInfo sdk).isSimulator } := by
      rw [← hsp]
    by_cases hmac : sp = "macos"
    · rw [hrec, hmac, resolveFromSdkAndSims_macos]
      simp
    · rw [hrec, resolveFromSdkAndSims_some sp _ sim list hmac]
      cases hsim : (deriveSdkInfo sdk).isSimulator with
      | false => simp
      | true =>
        simp only [if_true]
        intro h
        obtain ⟨u0, r0, hr0, hm0, hd0⟩ :=
          getSmartSimulatorDestination_shape sim list sp dest h
        have hder := hwf r0 hr0 hm0 u0
        rw [← hd0, hdp] at hder
        exact hne' (Option.some_inj.mp hder).symm
  · intro hmem
    rw [resolveDestination_no_explicit]
    have hsdk : deriveSdkInfo (some "macosx") =
        { platform := some "macos", isSimulator := false } := by decide
    have hcompat : platformsCompatible (deriveSdkInfo (some "macosx")).platform
        (derivePlatformFromDestination (some dest)) = false := by
      rw [hsdk]
      simp only [List.mem_cons, List.not_mem_nil, or_false] at hmem
      rcases hmem with h | h | h | h <;> rw [h] <;> decide
    simp only [resolveFromCaches, hdest, hb, Bool.not_false, if_true, hcompat,
      Bool.false_eq_true, if_false]
    rw [hsdk, resolveFromSdkAndSims_macos]

/-- C5 witness: the cached tvOS destination is reused for SDK
`tvossimulator` (the spec's example scenario), not reused for SDK
`iphonesimulator` against an iOS-only snapshot, and dropped entirely for
SDK `macosx`. -/
theorem claim5_witness :
    resolveDestination none (some tvPrefCfg) (some "tvossimulator") none
        { devices := [] } = some "platform=tvOS Simulator,id=TV-1" ∧
    resolveDestination none (some tvPrefCfg) (some "iphonesimulator")
        (some phoneDev) iosListing ≠ some "platform=tvOS Simulator,id=TV-1" ∧
    resolveDestination none (some tvPrefCfg) (some "macosx") none iosListing =
      none := by
  refine ⟨?_, ?_, ?_⟩
  · exact (claim5_destination_resolution tvPrefCfg
      "platform=tvOS Simulator,id=TV-1" none { devices := [] } rfl
      (by decide)).1 (some "tvossimulator") (by decide)
  · refine (claim5_destination_resolution tvPrefCfg
      "platform=tvOS Simulator,id=TV-1" (some phoneDev) iosListing rfl
      (by decide)).2.1 (some "iphonesimulator") "ios" "tvos" (by decide)
      (by decide) (by decide) ?_
    intro r hr hm u
    have hreq : r = iosRuntimeId := by
      simpa [iosListing] using hr
    subst hreq
    rw [derivePlatform_buildDest u iosRuntimeId "iOS Simulator" (by decide)
      (by decide) (by decide)]
    decide
  · exact (claim5_destination_resolution tvPrefCfg
      "platform=tvOS Simulator,id=TV-1" none iosListing rfl
      (by decide)).2.2 (by decide)

end XcMcp
